import Mathlib

/-!
Verification development for the `raster_mapping` repository (src/src/lib.rs).

The repository defines `Raster<T> { data: Array2<T> }` with
 * `Mapping::algebra(maps: HashMap<String, f32>) -> Raster<f32>`: a weighted
   overlay that seeds an accumulator from the first `(source, weight)` pair of
   the map's iteration order and folds `result = result + weight * data` over
   the remaining pairs, loading each grid via `get_data`;
 * three approximate-equality implementations (`abs_diff_eq`, `relative_eq`,
   `ulps_eq`) that loop over `zip(&self.data, &other.data)` and return `false`
   at the first element pair rejected by the per-element comparison.

Embedding choices:
 * `Array2<f32>` is embedded as a `Raster` record holding `rows`, `cols` and a
   row-major `elements : List ℚ`; rationals stand in for `f32` with exact
   arithmetic (`ℚ` has no rounding, no infinities and no NaN).
 * `HashMap` iteration order is embedded as an explicit association list
   `List (String × ℚ)`; the source calls `maps.iter()` twice on the same
   unmutated map, so both traversals see one and the same order.
 * The external grid loader (the `gdal` calls inside `get_data`) is an
   abstract parameter `loader : String → Except LoadError Raster`, per the
   spec's Grid Loader contract; the `unwrap()` panics of `get_data` and the
   panics of `ndarray` addition are embedded as `Except` errors.
 * `ndarray`'s `+` on two owned arrays adds elementwise when shapes agree and
   otherwise broadcasts the right-hand side to the shape of the left-hand
   side, panicking when that broadcast is impossible; `addNdarray` embeds
   exactly that rule for the 2-D case.
-/

/-- Embeds `Raster<f32> { data: Array2<f32> }`: the `Array2` is flattened to
its shape (`rows`, `cols`) and its row-major element sequence. -/
@[ext]
structure Raster where
  rows : Nat
  cols : Nat
  elements : List ℚ
deriving DecidableEq, Repr

/-- The `LoadError` kinds of the spec's Grid Loader contract (§6). -/
inductive LoadError
  | pathNotFound
  | decodeError
  | ioError
deriving DecidableEq, Repr

/-- How a run of `Raster::algebra` can abort: a panic of the `unwrap()` on a
failed load inside `get_data` (carrying the offending source and its load
error), or a panic of `ndarray` addition on an impossible broadcast. -/
inductive AlgebraError
  | load (source : String) (e : LoadError)
  | shape
deriving DecidableEq, Repr

/-- Row-major element access with default 0, used to express `ndarray`
broadcasting: element `(i, j)` of a grid. -/
def Raster.getRM (g : Raster) (i j : Nat) : ℚ :=
  g.elements.getD (i * g.cols + j) 0

/-- Embeds `weight * data`: `ndarray` scalar multiplication, elementwise. -/
def scalarMul (w : ℚ) (g : Raster) : Raster :=
  ⟨g.rows, g.cols, g.elements.map fun x => w * x⟩

/-- Total elementwise addition of two same-shaped grids (shape taken from the
left operand, elements zipped pointwise). -/
def gridAddT (a b : Raster) : Raster :=
  ⟨a.rows, a.cols, List.zipWith (fun x y => x + y) a.elements b.elements⟩

/-- Embeds `ndarray` broadcasting of a 2-D array to a target shape `(r, c)`:
possible exactly when each axis of the source equals the target axis or has
extent 1; an axis of extent 1 is repeated. -/
def broadcastTo (g : Raster) (r c : Nat) : Option Raster :=
  if (g.rows = r ∨ g.rows = 1) ∧ (g.cols = c ∨ g.cols = 1) then
    some ⟨r, c, (List.range r).flatMap fun i =>
      (List.range c).map fun j =>
        g.getRM (if g.rows = 1 then 0 else i) (if g.cols = 1 then 0 else j)⟩
  else none

/-- Embeds `ndarray`'s `result + rhs` on owned 2-D arrays: elementwise when
the shapes agree, otherwise the right-hand side is broadcast to the shape of
the left-hand side; `none` embeds the panic when broadcasting is
impossible. -/
def addNdarray (a b : Raster) : Option Raster :=
  if a.rows = b.rows ∧ a.cols = b.cols then
    some (gridAddT a b)
  else
    match broadcastTo b a.rows a.cols with
    | some b2 => some (gridAddT a b2)
    | none => none

/-- One iteration of the `for map in maps.iter().skip(1)` loop of
`Raster::algebra`: load the grid (`get_data`, whose `unwrap` panics on a load
failure) and add `weight * data` into the accumulator. -/
def algebraStep (loader : String → Except LoadError Raster) (acc : Raster)
    (p : String × ℚ) : Except AlgebraError Raster :=
  match loader p.1 with
  | .error e => .error (.load p.1 e)
  | .ok d =>
    match addNdarray acc (scalarMul p.2 d) with
    | some r => .ok r
    | none => .error .shape

/-- Embeds `Raster::<f32>::algebra` (src/src/lib.rs lines 45-71): when the
map is empty the code prints a message and returns the initial
`result = array![[]]`, the 1×0 empty array; otherwise the first pair seeds
`result = weight * data` and the loop folds `result = result + weight * data`
over the remaining pairs. -/
def algebra (loader : String → Except LoadError Raster)
    (maps : List (String × ℚ)) : Except AlgebraError Raster :=
  match maps with
  | [] => .ok ⟨1, 0, []⟩
  | (s, w) :: rest =>
    match loader s with
    | .error e => .error (.load s e)
    | .ok d => List.foldlM (algebraStep loader) (scalarMul w d) rest

/-- Per-element absolute-difference comparison of the `approx` crate for
`f32`, over the exact stand-in type ℚ: `(self - other).abs() <= epsilon`. -/
def f32absDiffEq (a b eps : ℚ) : Bool :=
  decide (|a - b| ≤ eps)

/-- Per-element relative comparison of the `approx` crate for `f32`, over ℚ:
equal values are accepted, then the absolute test with `epsilon`, then
`abs_diff <= largest * max_relative` with `largest = max(|a|, |b|)` (the
crate's infinity handling is vacuous over ℚ, which has no infinities). -/
def f32relativeEq (a b eps maxRel : ℚ) : Bool :=
  if a = b then true
  else if |a - b| ≤ eps then true
  else decide (|a - b| ≤ max |a| |b| * maxRel)

/-- Modelled from the spec: the per-element `ulps_eq` of the external `approx`
crate for `f32` — first the absolute test with `epsilon`; values of differing
sign (per `f32::signum`, which maps 0 to positive) are never ULPs-equal; else
the bit-level ULPs distance must be at most `max_ulps`. The bit-level
distance of two `f32` values has no counterpart on ℚ, so it is abstracted as
a parameter `dist`. -/
def f32ulpsEq (dist : ℚ → ℚ → Nat) (a b eps : ℚ) (maxUlps : Nat) : Bool :=
  if |a - b| ≤ eps then true
  else if (decide (0 ≤ a)) ≠ (decide (0 ≤ b)) then false
  else decide (dist a b ≤ maxUlps)

/-- Embeds the `for (item1, item2) in zip(...)` loop of
`Raster::abs_diff_eq`: pairs the two row-major sequences positionally,
stopping at the shorter (that is `zip`), returning `false` at the first
rejected pair and `true` when the loop finishes. -/
def absDiffEqL (eps : ℚ) : List ℚ → List ℚ → Bool
  | a :: t1, b :: t2 =>
    if f32absDiffEq a b eps then absDiffEqL eps t1 t2 else false
  | _, _ => true

/-- Embeds the loop of `Raster::relative_eq`, same traversal as
`absDiffEqL` with the per-element relative comparison. -/
def relativeEqL (eps maxRel : ℚ) : List ℚ → List ℚ → Bool
  | a :: t1, b :: t2 =>
    if f32relativeEq a b eps maxRel then relativeEqL eps maxRel t1 t2
    else false
  | _, _ => true

/-- Embeds the loop of `Raster::ulps_eq`, same traversal as `absDiffEqL`
with the per-element ULPs comparison. -/
def ulpsEqL (dist : ℚ → ℚ → Nat) (eps : ℚ) (maxUlps : Nat) :
    List ℚ → List ℚ → Bool
  | a :: t1, b :: t2 =>
    if f32ulpsEq dist a b eps maxUlps then ulpsEqL dist eps maxUlps t1 t2
    else false
  | _, _ => true

/-- Embeds `Raster::abs_diff_eq` (src/src/lib.rs lines 83-90). -/
def Raster.abs_diff_eq (g1 g2 : Raster) (eps : ℚ) : Bool :=
  absDiffEqL eps g1.elements g2.elements

/-- Embeds `Raster::relative_eq` (src/src/lib.rs lines 101-109). -/
def Raster.relative_eq (g1 g2 : Raster) (eps maxRel : ℚ) : Bool :=
  relativeEqL eps maxRel g1.elements g2.elements

/-- Embeds `Raster::ulps_eq` (src/src/lib.rs lines 120-127), with the
abstract per-element ULPs distance threaded through. -/
def Raster.ulps_eq (dist : ℚ → ℚ → Nat) (g1 g2 : Raster)
    (eps : ℚ) (maxUlps : Nat) : Bool :=
  ulpsEqL dist eps maxUlps g1.elements g2.elements

/-- The grid a loader yields on a source, defaulting to the empty grid on a
load failure; used only to state results about runs where every load
succeeds. -/
def loadG (loader : String → Except LoadError Raster) (s : String) : Raster :=
  match loader s with
  | .ok g => g
  | .error _ => ⟨0, 0, []⟩

/-- The all-zero grid of a given shape. -/
def zeroGrid (r c : Nat) : Raster :=
  ⟨r, c, List.replicate (r * c) 0⟩

/-- The explicit scalar-weighted sum `Σ_i weight_i * grid_i` of the spec
(§4.3), computed independently of `algebra`: element `k` of the result is the
sum over the weight mapping of `weight * (element k of the loaded grid)`. -/
def weightedSumSpec (loader : String → Except LoadError Raster)
    (maps : List (String × ℚ)) (r c : Nat) : Raster :=
  ⟨r, c, (List.range (r * c)).map fun k =>
    (maps.map fun p => p.2 * ((loadG loader p.1).elements.getD k 0)).sum⟩

/-- Claim C1 counterexample: on the empty weight mapping, `algebra` returns
normally the result of `array![[]]`, the 1×0 empty array — its row count is
1, not the 0 rows the claim states. -/
theorem algebra_empty_not_zero_rows :
    algebra (fun _ => .error .ioError) [] = .ok ⟨1, 0, []⟩ ∧
    (Raster.mk 1 0 []).rows ≠ 0 := by
  exact ⟨rfl, by decide⟩

/-- Claim C1 (amended): for the empty weight mapping, `algebra` returns a
normal result — not an error — namely the degenerate empty grid `array![[]]`
with 1 row, 0 columns and zero elements, for every loader. -/
theorem algebra_empty (loader : String → Except LoadError Raster) :
    algebra loader [] = .ok ⟨1, 0, []⟩ := rfl

/-- Claim C9: none of the three comparison methods inspects the shapes of the
two grids — each depends only on the two row-major element lists, which the
loop pairs up to the length of the shorter (`zip`); concretely, a 1×2 grid
and a 2×2 grid of different shape whose two overlapping element pairs agree
compare as `true` under all three methods. -/
theorem comparisons_ignore_shape :
    (∀ r c r2 c2 l1 l2 eps,
      Raster.abs_diff_eq ⟨r, c, l1⟩ ⟨r2, c2, l2⟩ eps = absDiffEqL eps l1 l2) ∧
    (∀ r c r2 c2 l1 l2 eps mr,
      Raster.relative_eq ⟨r, c, l1⟩ ⟨r2, c2, l2⟩ eps mr
        = relativeEqL eps mr l1 l2) ∧
    (∀ dist r c r2 c2 l1 l2 eps mu,
      Raster.ulps_eq dist ⟨r, c, l1⟩ ⟨r2, c2, l2⟩ eps mu
        = ulpsEqL dist eps mu l1 l2) ∧
    ((Raster.mk 1 2 [1, 2]).rows ≠ (Raster.mk 2 2 [1, 2, 3, 4]).rows ∧
      Raster.abs_diff_eq ⟨1, 2, [1, 2]⟩ ⟨2, 2, [1, 2, 3, 4]⟩ 0 = true ∧
      Raster.relative_eq ⟨1, 2, [1, 2]⟩ ⟨2, 2, [1, 2, 3, 4]⟩ 0 0 = true ∧
      Raster.ulps_eq (fun _ _ => 0) ⟨1, 2, [1, 2]⟩ ⟨2, 2, [1, 2, 3, 4]⟩ 0 0
        = true) := by
  refine ⟨fun _ _ _ _ _ _ _ => rfl, fun _ _ _ _ _ _ _ _ => rfl,
    fun _ _ _ _ _ _ _ _ _ => rfl, by decide, ?_, ?_, ?_⟩ <;>
    norm_num [Raster.abs_diff_eq, Raster.relative_eq, Raster.ulps_eq,
      absDiffEqL, relativeEqL, ulpsEqL, f32absDiffEq, f32relativeEq,
      f32ulpsEq]

/-- Claim C10: on two grids that each hold zero elements, all three
comparison loops are vacuous and return `true` for every choice of tolerance
parameters. -/
theorem comparisons_empty_true (g1 g2 : Raster)
    (h1 : g1.elements = []) (h2 : g2.elements = []) :
    ∀ dist eps maxRel maxUlps,
      Raster.abs_diff_eq g1 g2 eps = true ∧
      Raster.relative_eq g1 g2 eps maxRel = true ∧
      Raster.ulps_eq dist g1 g2 eps maxUlps = true := by
  intro dist eps maxRel maxUlps
  refine ⟨?_, ?_, ?_⟩ <;>
    simp [Raster.abs_diff_eq, Raster.relative_eq, Raster.ulps_eq, h1, h2,
      absDiffEqL, relativeEqL, ulpsEqL]

/-- Claim C10 witness: the two empty grids of shape 0×0. -/
theorem comparisons_empty_true_witness :
    (Raster.mk 0 0 []).elements = [] ∧
    (Raster.abs_diff_eq ⟨0, 0, []⟩ ⟨0, 0, []⟩ 1 = true ∧
     Raster.relative_eq ⟨0, 0, []⟩ ⟨0, 0, []⟩ 1 1 = true ∧
     Raster.ulps_eq (fun _ _ => 0) ⟨0, 0, []⟩ ⟨0, 0, []⟩ 1 1 = true) :=
  ⟨rfl, comparisons_empty_true ⟨0, 0, []⟩ ⟨0, 0, []⟩ rfl rfl
    (fun _ _ => 0) 1 1 1⟩

lemma f32absDiffEq_eq_true (a b eps : ℚ) :
    f32absDiffEq a b eps = true ↔ |a - b| ≤ eps := by
  simp [f32absDiffEq]

lemma absDiffEqL_iff (eps : ℚ) :
    ∀ l1 l2 : List ℚ, l1.length = l2.length →
      (absDiffEqL eps l1 l2 = true ↔
        ∀ i < l1.length, |l1.getD i 0 - l2.getD i 0| ≤ eps) := by
  intro l1
  induction l1 with
  | nil =>
    intro l2 h
    simp [absDiffEqL]
  | cons a t1 ih =>
    intro l2 h
    match l2 with
    | [] => simp at h
    | b :: t2 =>
      simp only [List.length_cons] at h
      have ht : t1.length = t2.length := by omega
      rw [absDiffEqL]
      by_cases hab : |a - b| ≤ eps
      · rw [if_pos ((f32absDiffEq_eq_true a b eps).mpr hab)]
        rw [ih t2 ht]
        constructor
        · intro hall i hi
          match i with
          | 0 => simpa using hab
          | i + 1 =>
            have hlt : i < t1.length := by
              simpa [Nat.succ_lt_succ_iff] using hi
            simpa using hall i hlt
        · intro hall i hi
          have := hall (i + 1) (by simpa [Nat.succ_lt_succ_iff] using hi)
          simpa using this
      · have : f32absDiffEq a b eps = false := by
          simp [f32absDiffEq, hab]
        rw [if_neg (by simp [this])]
        constructor
        · intro hf
          exact absurd hf (by simp)
        · intro hall
          exact absurd (by simpa using hall 0 (by simp)) hab

lemma absDiffEqL_shortCircuit (eps : ℚ) :
    ∀ pre1 pre2 a b (s1 s2 : List ℚ), pre1.length = pre2.length →
      ¬(|a - b| ≤ eps) →
      absDiffEqL eps (pre1 ++ a :: s1) (pre2 ++ b :: s2) = false := by
  intro pre1
  induction pre1 with
  | nil =>
    intro pre2 a b s1 s2 hlen hab
    match pre2 with
    | [] =>
      rw [List.nil_append, List.nil_append, absDiffEqL]
      rw [if_neg (by simp [f32absDiffEq, hab])]
    | y :: u => simp at hlen
  | cons x t ih =>
    intro pre2 a b s1 s2 hlen hab
    match pre2 with
    | [] => simp at hlen
    | y :: u =>
      simp only [List.length_cons] at hlen
      rw [List.cons_append, List.cons_append, absDiffEqL]
      by_cases hxy : f32absDiffEq x y eps = true
      · rw [if_pos hxy]
        exact ih u a b s1 s2 (by omega) hab
      · rw [if_neg hxy]

/-- Claim C5: for two same-shaped grids, `abs_diff_eq` returns `true` iff
every corresponding element pair in row-major order satisfies |a - b| ≤ eps;
moreover the loop returns `false` as soon as a failing pair is reached: if
the two element sequences reach a failing pair after equally long prefixes,
the result is `false` whatever elements follow that pair. -/
theorem abs_diff_eq_spec (g1 g2 : Raster) (eps : ℚ)
    (hr : g1.rows = g2.rows) (hc : g1.cols = g2.cols)
    (h1 : g1.elements.length = g1.rows * g1.cols)
    (h2 : g2.elements.length = g2.rows * g2.cols) :
    (Raster.abs_diff_eq g1 g2 eps = true ↔
      ∀ i < g1.elements.length,
        |g1.elements.getD i 0 - g2.elements.getD i 0| ≤ eps) ∧
    (∀ pre1 pre2 a b (s1 s2 : List ℚ), pre1.length = pre2.length →
      ¬(|a - b| ≤ eps) →
      Raster.abs_diff_eq ⟨g1.rows, g1.cols, pre1 ++ a :: s1⟩
        ⟨g2.rows, g2.cols, pre2 ++ b :: s2⟩ eps = false) := by
  constructor
  · exact absDiffEqL_iff eps g1.elements g2.elements
      (by rw [h1, h2, hr, hc])
  · intro pre1 pre2 a b s1 s2 hlen hab
    exact absDiffEqL_shortCircuit eps pre1 pre2 a b s1 s2 hlen hab

/-- Claim C5 witness: two 1×2 grids agreeing in one cell and separated by 2
in the other, at tolerance 1. -/
theorem abs_diff_eq_spec_witness :
    (Raster.abs_diff_eq ⟨1, 2, [0, 3]⟩ ⟨1, 2, [0, 1]⟩ 1 = true ↔
      ∀ i < (Raster.mk 1 2 [0, 3]).elements.length,
        |(Raster.mk 1 2 [0, 3]).elements.getD i 0 -
          (Raster.mk 1 2 [0, 1]).elements.getD i 0| ≤ 1) ∧
    (∀ pre1 pre2 a b (s1 s2 : List ℚ), pre1.length = pre2.length →
      ¬(|a - b| ≤ 1) →
      Raster.abs_diff_eq ⟨1, 2, pre1 ++ a :: s1⟩ ⟨1, 2, pre2 ++ b :: s2⟩ 1
        = false) :=
  abs_diff_eq_spec ⟨1, 2, [0, 3]⟩ ⟨1, 2, [0, 1]⟩ 1 rfl rfl rfl rfl

lemma f32relativeEq_eq_true (a b eps maxRel : ℚ) (heps : 0 ≤ eps) :
    f32relativeEq a b eps maxRel = true ↔
      |a - b| ≤ eps ∨ |a - b| ≤ maxRel * max |a| |b| := by
  rw [f32relativeEq]
  by_cases hab : a = b
  · rw [if_pos hab]
    subst hab
    simp [heps]
  · rw [if_neg hab]
    by_cases habs : |a - b| ≤ eps
    · rw [if_pos habs]
      simp [habs]
    · rw [if_neg habs]
      rw [mul_comm maxRel]
      simp [habs]

lemma relativeEqL_iff (eps maxRel : ℚ) (heps : 0 ≤ eps) :
    ∀ l1 l2 : List ℚ, l1.length = l2.length →
      (relativeEqL eps maxRel l1 l2 = true ↔
        ∀ i < l1.length,
          |l1.getD i 0 - l2.getD i 0| ≤ eps ∨
          |l1.getD i 0 - l2.getD i 0| ≤
            maxRel * max |l1.getD i 0| |l2.getD i 0|) := by
  intro l1
  induction l1 with
  | nil =>
    intro l2 h
    simp [relativeEqL]
  | cons a t1 ih =>
    intro l2 h
    match l2 with
    | [] => simp at h
    | b :: t2 =>
      simp only [List.length_cons] at h
      have ht : t1.length = t2.length := by omega
      rw [relativeEqL]
      by_cases hab : f32relativeEq a b eps maxRel = true
      · rw [if_pos hab]
        rw [ih t2 ht]
        constructor
        · intro hall i hi
          match i with
          | 0 =>
            simpa using (f32relativeEq_eq_true a b eps maxRel heps).mp hab
          | i + 1 =>
            have hlt : i < t1.length := by
              simpa [Nat.succ_lt_succ_iff] using hi
            simpa using hall i hlt
        · intro hall i hi
          have := hall (i + 1) (by simpa [Nat.succ_lt_succ_iff] using hi)
          simpa using this
      · rw [if_neg hab]
        constructor
        · intro hf
          exact absurd hf (by simp)
        · intro hall
          refine absurd ((f32relativeEq_eq_true a b eps maxRel heps).mpr ?_)
            hab
          simpa using hall 0 (by simp)

/-- Claim C6: for two same-shaped grids and a nonnegative epsilon,
`relative_eq` returns `true` iff every corresponding element pair `(a, b)` is
accepted, and a pair is accepted exactly when the absolute-difference test
with `epsilon` passes or |a - b| ≤ max_relative * max(|a|, |b|). -/
theorem relative_eq_spec (g1 g2 : Raster) (eps maxRel : ℚ) (heps : 0 ≤ eps)
    (hr : g1.rows = g2.rows) (hc : g1.cols = g2.cols)
    (h1 : g1.elements.length = g1.rows * g1.cols)
    (h2 : g2.elements.length = g2.rows * g2.cols) :
    Raster.relative_eq g1 g2 eps maxRel = true ↔
      ∀ i < g1.elements.length,
        |g1.elements.getD i 0 - g2.elements.getD i 0| ≤ eps ∨
        |g1.elements.getD i 0 - g2.elements.getD i 0| ≤
          maxRel * max |g1.elements.getD i 0| |g2.elements.getD i 0| :=
  relativeEqL_iff eps maxRel heps g1.elements g2.elements
    (by rw [h1, h2, hr, hc])

/-- Claim C6 witness: 1×2 grids, tolerance parameters epsilon = 1 and
max_relative = 1. -/
theorem relative_eq_spec_witness :
    (0 : ℚ) ≤ 1 ∧
    (Raster.relative_eq ⟨1, 2, [0, 3]⟩ ⟨1, 2, [0, 1]⟩ 1 1 = true ↔
      ∀ i < (Raster.mk 1 2 [0, 3]).elements.length,
        |(Raster.mk 1 2 [0, 3]).elements.getD i 0 -
          (Raster.mk 1 2 [0, 1]).elements.getD i 0| ≤ 1 ∨
        |(Raster.mk 1 2 [0, 3]).elements.getD i 0 -
          (Raster.mk 1 2 [0, 1]).elements.getD i 0| ≤
          1 * max |(Raster.mk 1 2 [0, 3]).elements.getD i 0|
            |(Raster.mk 1 2 [0, 1]).elements.getD i 0|) :=
  ⟨by decide,
    relative_eq_spec ⟨1, 2, [0, 3]⟩ ⟨1, 2, [0, 1]⟩ 1 1 (by decide)
      rfl rfl rfl rfl⟩

/-- Claim C7: in `ulps_eq`, an element pair whose values have differing sign
is never accepted by the ULPs-distance fallback — it is accepted exactly when
the absolute-difference test with `epsilon` already accepts it (the result
coincides with `f32absDiffEq` for every ULPs distance and every `max_ulps`);
likewise for the comparison of two 1×1 grids holding the two values. -/
theorem ulps_eq_differing_sign (a b eps : ℚ)
    (hsign : (a < 0 ∧ 0 < b) ∨ (b < 0 ∧ 0 < a)) :
    ∀ (dist : ℚ → ℚ → Nat) (maxUlps : Nat),
      f32ulpsEq dist a b eps maxUlps = f32absDiffEq a b eps ∧
      Raster.ulps_eq dist ⟨1, 1, [a]⟩ ⟨1, 1, [b]⟩ eps maxUlps
        = f32absDiffEq a b eps := by
  intro dist maxUlps
  have hcell : f32ulpsEq dist a b eps maxUlps = f32absDiffEq a b eps := by
    rw [f32ulpsEq]
    by_cases habs : |a - b| ≤ eps
    · rw [if_pos habs]
      simp [f32absDiffEq, habs]
    · rw [if_neg habs]
      have hne : (decide (0 ≤ a)) ≠ (decide (0 ≤ b)) := by
        rcases hsign with ⟨ha, hb⟩ | ⟨hb, ha⟩
        · simp [not_le.mpr ha, le_of_lt hb]
        · simp [le_of_lt ha, not_le.mpr hb]
      rw [if_pos hne]
      simp [f32absDiffEq, habs]
  refine ⟨hcell, ?_⟩
  rw [Raster.ulps_eq]
  show ulpsEqL dist eps maxUlps [a] [b] = f32absDiffEq a b eps
  rw [ulpsEqL, hcell]
  cases habs : f32absDiffEq a b eps
  · simp
  · simp [ulpsEqL]

/-- Claim C7 witness: the differing-sign pair a = -1, b = 1 at epsilon 1. -/
theorem ulps_eq_differing_sign_witness :
    (((-1 : ℚ) < 0 ∧ (0 : ℚ) < 1) ∨ ((1 : ℚ) < 0 ∧ (0 : ℚ) < -1)) ∧
    (f32ulpsEq (fun _ _ => 0) (-1) 1 1 0 = f32absDiffEq (-1) 1 1 ∧
      Raster.ulps_eq (fun _ _ => 0) ⟨1, 1, [-1]⟩ ⟨1, 1, [1]⟩ 1 0
        = f32absDiffEq (-1) 1 1) :=
  ⟨Or.inl ⟨by decide, by decide⟩,
    ulps_eq_differing_sign (-1) 1 1 (Or.inl ⟨by decide, by decide⟩)
      (fun _ _ => 0) 0⟩

/-- A concrete loader for the broadcast counterexample: source "a" holds a
2×2 grid, source "b" a 1×2 grid, and every other source fails. -/
def loaderBroadcast : String → Except LoadError Raster := fun s =>
  if s = "a" then .ok ⟨2, 2, [1, 2, 3, 4]⟩
  else if s = "b" then .ok ⟨1, 2, [10, 20]⟩
  else .error .pathNotFound

/-- Claim C3 counterexample: overlaying the 2×2 source "a" with the 1×2
source "b" — two sources of different shapes, both with weight 1 — does not
fail: `ndarray` broadcasts the 1×2 grid over both rows of the accumulator and
`algebra` returns the broadcast sum as a normal result. -/
theorem algebra_broadcasts_mismatched_shapes :
    loaderBroadcast "a" = .ok ⟨2, 2, [1, 2, 3, 4]⟩ ∧
    loaderBroadcast "b" = .ok ⟨1, 2, [10, 20]⟩ ∧
    (Raster.mk 2 2 [1, 2, 3, 4]).rows ≠ (Raster.mk 1 2 [10, 20]).rows ∧
    algebra loaderBroadcast [("a", 1), ("b", 1)]
      = .ok ⟨2, 2, [11, 22, 13, 24]⟩ := by
  refine ⟨rfl, rfl, by decide, ?_⟩
  have h1 : scalarMul 1 ⟨2, 2, [1, 2, 3, 4]⟩ = ⟨2, 2, [1, 2, 3, 4]⟩ := by
    simp [scalarMul]
  have h2 : scalarMul 1 ⟨1, 2, [10, 20]⟩ = ⟨1, 2, [10, 20]⟩ := by
    simp [scalarMul]
  have hstep : algebraStep loaderBroadcast ⟨2, 2, [1, 2, 3, 4]⟩ ("b", 1)
      = .ok ⟨2, 2, [11, 22, 13, 24]⟩ := by
    have hload : loaderBroadcast "b" = .ok ⟨1, 2, [10, 20]⟩ := rfl
    have hbc : broadcastTo ⟨1, 2, [10, 20]⟩ 2 2
        = some ⟨2, 2, [10, 20, 10, 20]⟩ := by
      rw [broadcastTo, if_pos (by decide)]
      norm_num [Raster.getRM, List.range_succ]
    have hadd : addNdarray ⟨2, 2, [1, 2, 3, 4]⟩ ⟨1, 2, [10, 20]⟩
        = some ⟨2, 2, [11, 22, 13, 24]⟩ := by
      rw [addNdarray, if_neg (by decide), hbc]
      show some (gridAddT ⟨2, 2, [1, 2, 3, 4]⟩ ⟨2, 2, [10, 20, 10, 20]⟩) = _
      norm_num [gridAddT]
    simp only [algebraStep, hload, h2, hadd]
  show List.foldlM (algebraStep loaderBroadcast)
    (scalarMul 1 ⟨2, 2, [1, 2, 3, 4]⟩) [("b", 1)] = _
  rw [h1]
  simp [List.foldlM, hstep]

/-- Claim C3 (amended): loading two sources of different shapes fails with
the shape panic (modelled `AlgebraError.shape`) only when the second grid is
not broadcastable to the shape of the accumulator seeded from the first —
that is, when some axis of the second grid neither equals the first grid's
axis nor has extent 1; a broadcastable second grid of different shape is
silently broadcast instead (see the counterexample). -/
theorem algebra_shape_mismatch (loader : String → Except LoadError Raster)
    (s1 s2 : String) (w1 w2 : ℚ) (g1 g2 : Raster)
    (hl1 : loader s1 = .ok g1) (hl2 : loader s2 = .ok g2)
    (hnb : ¬((g2.rows = g1.rows ∨ g2.rows = 1) ∧
             (g2.cols = g1.cols ∨ g2.cols = 1))) :
    algebra loader [(s1, w1), (s2, w2)] = .error .shape := by
  have hne : ¬((scalarMul w1 g1).rows = (scalarMul w2 g2).rows ∧
      (scalarMul w1 g1).cols = (scalarMul w2 g2).cols) := by
    simp only [scalarMul]
    intro ⟨hrr, hcc⟩
    exact hnb ⟨Or.inl hrr.symm, Or.inl hcc.symm⟩
  have hbc : broadcastTo (scalarMul w2 g2) (scalarMul w1 g1).rows
      (scalarMul w1 g1).cols = none := by
    rw [broadcastTo, if_neg]
    simpa [scalarMul] using hnb
  show (match loader s1 with
    | .error e => .error (.load s1 e)
    | .ok d => List.foldlM (algebraStep loader) (scalarMul w1 d)
        [(s2, w2)]) = Except.error .shape
  rw [hl1]
  show List.foldlM (algebraStep loader) (scalarMul w1 g1) [(s2, w2)]
    = Except.error .shape
  rw [List.foldlM]
  show (algebraStep loader (scalarMul w1 g1) (s2, w2)) >>= _
    = Except.error .shape
  rw [algebraStep]
  simp only [hl2, addNdarray, if_neg hne, hbc]
  rfl

/-- A concrete loader for the shape-mismatch witness: source "a" holds a 2×2
grid, every other source a 3×3 grid. -/
def loaderMismatch : String → Except LoadError Raster := fun s =>
  if s = "a" then .ok ⟨2, 2, [0, 0, 0, 0]⟩
  else .ok ⟨3, 3, [0, 0, 0, 0, 0, 0, 0, 0, 0]⟩

/-- Claim C3 amended-theorem witness: a 2×2 source overlaid with a 3×3
source, which is not broadcastable into the 2×2 accumulator. -/
theorem algebra_shape_mismatch_witness :
    loaderMismatch "a" = .ok ⟨2, 2, [0, 0, 0, 0]⟩ ∧
    loaderMismatch "b" = .ok ⟨3, 3, [0, 0, 0, 0, 0, 0, 0, 0, 0]⟩ ∧
    algebra loaderMismatch [("a", 1), ("b", 1)] = .error .shape :=
  ⟨rfl, rfl,
    algebra_shape_mismatch loaderMismatch "a" "b" 1 1 ⟨2, 2, [0, 0, 0, 0]⟩
      ⟨3, 3, [0, 0, 0, 0, 0, 0, 0, 0, 0]⟩ rfl rfl (by decide)⟩

lemma gridAddT_shape (acc x : Raster) :
    (gridAddT acc x).rows = acc.rows ∧ (gridAddT acc x).cols = acc.cols ∧
      (gridAddT acc x).elements.length
        = min acc.elements.length x.elements.length := by
  simp [gridAddT]

lemma addNdarray_same_shape (acc x : Raster)
    (hr : acc.rows = x.rows) (hc : acc.cols = x.cols) :
    addNdarray acc x = some (gridAddT acc x) := by
  rw [addNdarray, if_pos ⟨hr, hc⟩]

lemma foldlM_load_fail (loader : String → Except LoadError Raster)
    (R C : Nat) :
    ∀ (rest : List (String × ℚ)) (acc : Raster),
      acc.rows = R → acc.cols = C → acc.elements.length = R * C →
      (∀ p ∈ rest,
        (∃ g, loader p.1 = .ok g ∧ g.rows = R ∧ g.cols = C ∧
          g.elements.length = R * C) ∨ ∃ e, loader p.1 = .error e) →
      (∃ p ∈ rest, ∃ e, loader p.1 = .error e) →
      ∃ s w e, (s, w) ∈ rest ∧ loader s = .error e ∧
        List.foldlM (algebraStep loader) acc rest = .error (.load s e) := by
  intro rest
  induction rest with
  | nil =>
    intro acc _ _ _ _ hfail
    rcases hfail with ⟨p, hp, _⟩
    simp at hp
  | cons p t ih =>
    obtain ⟨ps, pw⟩ := p
    intro acc hr hc hlen hall hfail
    rcases hall (ps, pw) (by simp) with ⟨g, hg, hgr, hgc, hglen⟩ | ⟨e, he⟩
    · have hfail' : ∃ q ∈ t, ∃ e, loader q.1 = .error e := by
        rcases hfail with ⟨q, hq, e, he⟩
        rcases List.mem_cons.mp hq with rfl | hqt
        · rw [he] at hg
          cases hg
        · exact ⟨q, hqt, e, he⟩
      have hstep : algebraStep loader acc (ps, pw)
          = .ok (gridAddT acc (scalarMul pw g)) := by
        simp only [algebraStep, hg]
        rw [addNdarray_same_shape acc (scalarMul pw g)
          (by simp [scalarMul, hr, hgr]) (by simp [scalarMul, hc, hgc])]
      obtain ⟨s, w, e, hmem, he, hfold⟩ :=
        ih (gridAddT acc (scalarMul pw g))
          (by simp [gridAddT, hr])
          (by simp [gridAddT, hc])
          (by simp [gridAddT, scalarMul, hlen, hglen])
          (fun q hq => hall q (List.mem_cons_of_mem _ hq)) hfail'
      refine ⟨s, w, e, List.mem_cons_of_mem _ hmem, he, ?_⟩
      rw [List.foldlM_cons, hstep]
      simpa using hfold
    · refine ⟨ps, pw, e, by simp, he, ?_⟩
      rw [List.foldlM_cons]
      simp only [algebraStep, he]
      rfl

/-- Claim C4: if loading any single source of a weighted overlay fails —
while every source that does load yields a grid of the common shape, so that
the accumulation itself cannot abort first — the whole overlay aborts with a
load panic carrying a genuinely failing source and its `LoadError`, and no
result grid (partial or otherwise) is returned. -/
theorem algebra_load_failure (loader : String → Except LoadError Raster)
    (maps : List (String × ℚ)) (R C : Nat)
    (hall : ∀ p ∈ maps,
      (∃ g, loader p.1 = .ok g ∧ g.rows = R ∧ g.cols = C ∧
        g.elements.length = R * C) ∨ ∃ e, loader p.1 = .error e)
    (hfail : ∃ p ∈ maps, ∃ e, loader p.1 = .error e) :
    ∃ s w e, (s, w) ∈ maps ∧ loader s = .error e ∧
      algebra loader maps = .error (.load s e) := by
  match maps with
  | [] =>
    rcases hfail with ⟨p, hp, _⟩
    simp at hp
  | (s0, w0) :: rest =>
    cases hl : loader s0 with
    | error e =>
      refine ⟨s0, w0, e, by simp, hl, ?_⟩
      show (match loader s0 with
        | .error e => .error (.load s0 e)
        | .ok d => List.foldlM (algebraStep loader) (scalarMul w0 d) rest)
        = Except.error (.load s0 e)
      rw [hl]
    | ok d =>
      rcases hall (s0, w0) (by simp) with ⟨g, hg, hgr, hgc, hglen⟩ | ⟨e, he⟩
      · rw [hl] at hg
        injection hg with hg
        subst hg
        have hfail' : ∃ q ∈ rest, ∃ e, loader q.1 = .error e := by
          rcases hfail with ⟨q, hq, e, he⟩
          rcases List.mem_cons.mp hq with rfl | hqt
          · rw [he] at hl
            cases hl
          · exact ⟨q, hqt, e, he⟩
        obtain ⟨s, w, e, hmem, he, hfold⟩ :=
          foldlM_load_fail loader R C rest (scalarMul w0 d)
            (by simp [scalarMul, hgr]) (by simp [scalarMul, hgc])
            (by simp [scalarMul, hglen])
            (fun q hq => hall q (List.mem_cons_of_mem _ hq)) hfail'
        refine ⟨s, w, e, List.mem_cons_of_mem _ hmem, he, ?_⟩
        show (match loader s0 with
          | .error e => .error (.load s0 e)
          | .ok d => List.foldlM (algebraStep loader) (scalarMul w0 d) rest)
          = Except.error (.load s e)
        rw [hl]
        exact hfold
      · rw [hl] at he
        cases he

/-- A concrete loader for the load-failure witness: source "a" holds a 1×1
grid, every other source fails with a decode error. -/
def loaderFailing : String → Except LoadError Raster := fun s =>
  if s = "a" then .ok ⟨1, 1, [0]⟩ else .error .decodeError

/-- Claim C4 witness: an overlay of the good source "a" and the failing
source "bad" aborts with the decode error of "bad". -/
theorem algebra_load_failure_witness :
    loaderFailing "bad" = .error .decodeError ∧
    (∃ s w e, (s, w) ∈ [("a", (1 : ℚ)), ("bad", 2)] ∧
      loaderFailing s = .error e ∧
      algebra loaderFailing [("a", 1), ("bad", 2)] = .error (.load s e)) :=
  ⟨rfl,
    algebra_load_failure loaderFailing [("a", 1), ("bad", 2)] 1 1
      (by
        intro p hp
        rcases List.mem_cons.mp hp with rfl | hp2
        · exact Or.inl ⟨⟨1, 1, [0]⟩, rfl, rfl, rfl, rfl⟩
        · rcases List.mem_cons.mp hp2 with rfl | hp3
          · exact Or.inr ⟨.decodeError, rfl⟩
          · simp at hp3)
      ⟨("bad", 2), by simp, .decodeError, rfl⟩⟩

lemma f32relativeEq_refl (a eps maxRel : ℚ) :
    f32relativeEq a a eps maxRel = true := by
  rw [f32relativeEq, if_pos rfl]

lemma relativeEqL_refl (eps maxRel : ℚ) :
    ∀ l : List ℚ, relativeEqL eps maxRel l l = true := by
  intro l
  induction l with
  | nil => rfl
  | cons a t ih =>
    rw [relativeEqL, if_pos (by rw [f32relativeEq_refl])]
    exact ih

lemma relative_eq_refl (g : Raster) (eps maxRel : ℚ) :
    Raster.relative_eq g g eps maxRel = true :=
  relativeEqL_refl eps maxRel g.elements

lemma zipWith_add_replicate_zero :
    ∀ l : List ℚ,
      List.zipWith (fun x y => x + y) (List.replicate l.length 0) l = l := by
  intro l
  induction l with
  | nil => rfl
  | cons a t ih =>
    simp only [List.length_cons, List.replicate_succ,
      List.zipWith_cons_cons, zero_add, ih]

lemma zipWith_add_getD (l1 l2 : List ℚ) (k : Nat)
    (h1 : k < l1.length) (h2 : k < l2.length) :
    (List.zipWith (fun x y => x + y) l1 l2).getD k 0
      = l1.getD k 0 + l2.getD k 0 := by
  have hk : k < (List.zipWith (fun x y => x + y) l1 l2).length := by
    simp [h1, h2]
  rw [List.getD_eq_getElem _ _ hk, List.getElem_zipWith,
    List.getD_eq_getElem _ _ h1, List.getD_eq_getElem _ _ h2]

lemma getD_map_lt (f : ℚ → ℚ) (l : List ℚ) (k : Nat) (h : k < l.length) :
    (l.map f).getD k 0 = f (l.getD k 0) := by
  have hk : k < (l.map f).length := by simpa using h
  rw [List.getD_eq_getElem _ _ hk, List.getElem_map,
    List.getD_eq_getElem _ _ h]

lemma zipWith_add_right_comm :
    ∀ a x y : List ℚ,
      List.zipWith (fun u v => u + v) (List.zipWith (fun u v => u + v) a x) y
        = List.zipWith (fun u v => u + v)
            (List.zipWith (fun u v => u + v) a y) x := by
  intro a
  induction a with
  | nil =>
    intro x y
    simp
  | cons h t ih =>
    intro x y
    cases x with
    | nil => cases y <;> simp
    | cons xh xt =>
      cases y with
      | nil => simp
      | cons yh yt =>
        simp only [List.zipWith_cons_cons]
        rw [add_right_comm, ih]

/-- The pure accumulation step of a run of `algebra` in which every load
succeeds and shapes agree: add `weight * grid` into the accumulator. -/
def overlayStep (loader : String → Except LoadError Raster) (acc : Raster)
    (p : String × ℚ) : Raster :=
  gridAddT acc (scalarMul p.2 (loadG loader p.1))

lemma algebraStep_ok (loader : String → Except LoadError Raster)
    (acc : Raster) (p : String × ℚ) (g : Raster)
    (hg : loader p.1 = .ok g) (hr : acc.rows = g.rows)
    (hc : acc.cols = g.cols) :
    algebraStep loader acc p = .ok (overlayStep loader acc p) := by
  have hload : loadG loader p.1 = g := by
    rw [loadG, hg]
  simp only [algebraStep, hg]
  rw [addNdarray_same_shape acc _ (by simp [scalarMul, hr])
    (by simp [scalarMul, hc])]
  rw [overlayStep, hload]

lemma overlayStep_shape (loader : String → Except LoadError Raster)
    (acc : Raster) (p : String × ℚ) :
    (overlayStep loader acc p).rows = acc.rows ∧
    (overlayStep loader acc p).cols = acc.cols ∧
    (overlayStep loader acc p).elements.length
      = min acc.elements.length (loadG loader p.1).elements.length := by
  simp [overlayStep, gridAddT, scalarMul]

lemma foldlM_eq_foldl (loader : String → Except LoadError Raster)
    (R C : Nat) :
    ∀ (l : List (String × ℚ)) (acc : Raster),
      acc.rows = R → acc.cols = C → acc.elements.length = R * C →
      (∀ p ∈ l, ∃ g, loader p.1 = .ok g ∧ g.rows = R ∧ g.cols = C ∧
        g.elements.length = R * C) →
      List.foldlM (algebraStep loader) acc l
        = .ok (List.foldl (overlayStep loader) acc l) := by
  intro l
  induction l with
  | nil =>
    intro acc _ _ _ _
    rfl
  | cons p t ih =>
    intro acc hr hc hlen hld
    obtain ⟨g, hg, hgr, hgc, hglen⟩ := hld p (by simp)
    have hload : loadG loader p.1 = g := by
      rw [loadG, hg]
    have hstep := algebraStep_ok loader acc p g hg (by rw [hr, hgr])
      (by rw [hc, hgc])
    rw [List.foldlM_cons, hstep, List.foldl_cons]
    have hshape := overlayStep_shape loader acc p
    have hok := ih (overlayStep loader acc p)
      (by rw [hshape.1, hr]) (by rw [hshape.2.1, hc])
      (by rw [hshape.2.2, hload, hglen, hlen, Nat.min_self])
      (fun q hq => hld q (List.mem_cons_of_mem _ hq))
    simpa using hok

lemma foldl_overlay_shape (loader : String → Except LoadError Raster)
    (R C : Nat) :
    ∀ (l : List (String × ℚ)) (acc : Raster),
      acc.rows = R → acc.cols = C → acc.elements.length = R * C →
      (∀ p ∈ l, (loadG loader p.1).elements.length = R * C) →
      (List.foldl (overlayStep loader) acc l).rows = R ∧
      (List.foldl (overlayStep loader) acc l).cols = C ∧
      (List.foldl (overlayStep loader) acc l).elements.length = R * C := by
  intro l
  induction l with
  | nil =>
    intro acc hr hc hlen _
    exact ⟨hr, hc, hlen⟩
  | cons p t ih =>
    intro acc hr hc hlen hld
    have hshape := overlayStep_shape loader acc p
    rw [List.foldl_cons]
    exact ih (overlayStep loader acc p)
      (by rw [hshape.1, hr]) (by rw [hshape.2.1, hc])
      (by rw [hshape.2.2, hld p (by simp), hlen, Nat.min_self])
      (fun q hq => hld q (List.mem_cons_of_mem _ hq))

lemma foldl_overlay_getD (loader : String → Except LoadError Raster)
    (R C : Nat) :
    ∀ (l : List (String × ℚ)) (acc : Raster),
      acc.rows = R → acc.cols = C → acc.elements.length = R * C →
      (∀ p ∈ l, (loadG loader p.1).elements.length = R * C) →
      ∀ k, k < R * C →
        (List.foldl (overlayStep loader) acc l).elements.getD k 0
          = acc.elements.getD k 0
            + (l.map fun p =>
                p.2 * (loadG loader p.1).elements.getD k 0).sum := by
  intro l
  induction l with
  | nil =>
    intro acc _ _ _ _ k _
    simp
  | cons p t ih =>
    intro acc hr hc hlen hld k hk
    have hplen : (loadG loader p.1).elements.length = R * C :=
      hld p (by simp)
    have hshape := overlayStep_shape loader acc p
    rw [List.foldl_cons]
    have hrec := ih (overlayStep loader acc p)
      (by rw [hshape.1, hr]) (by rw [hshape.2.1, hc])
      (by rw [hshape.2.2, hplen, hlen, Nat.min_self])
      (fun q hq => hld q (List.mem_cons_of_mem _ hq)) k hk
    rw [hrec]
    have hacc : (overlayStep loader acc p).elements.getD k 0
        = acc.elements.getD k 0
          + p.2 * (loadG loader p.1).elements.getD k 0 := by
      rw [overlayStep, gridAddT]
      show (List.zipWith (fun x y => x + y) acc.elements
        (scalarMul p.2 (loadG loader p.1)).elements).getD k 0 = _
      rw [zipWith_add_getD _ _ k (by rw [hlen]; exact hk)
        (by simp [scalarMul, hplen, hk])]
      congr 1
      show ((loadG loader p.1).elements.map fun x => p.2 * x).getD k 0 = _
      rw [getD_map_lt _ _ k (by rw [hplen]; exact hk)]
    rw [hacc, List.map_cons, List.sum_cons, add_assoc]

lemma zeroGrid_shape (R C : Nat) :
    (zeroGrid R C).rows = R ∧ (zeroGrid R C).cols = C ∧
      (zeroGrid R C).elements.length = R * C := by
  simp [zeroGrid]

lemma overlayStep_zero (loader : String → Except LoadError Raster)
    (R C : Nat) (p : String × ℚ) (g : Raster)
    (hg : loader p.1 = .ok g) (hgr : g.rows = R) (hgc : g.cols = C)
    (hglen : g.elements.length = R * C) :
    overlayStep loader (zeroGrid R C) p = scalarMul p.2 g := by
  have hload : loadG loader p.1 = g := by
    rw [loadG, hg]
  have hlen2 : (scalarMul p.2 g).elements.length = R * C := by
    simp [scalarMul, hglen]
  rw [overlayStep, hload]
  apply Raster.ext
  · simp [gridAddT, zeroGrid, scalarMul, hgr]
  · simp [gridAddT, zeroGrid, scalarMul, hgc]
  · show List.zipWith (fun x y => x + y) (List.replicate (R * C) 0)
      (scalarMul p.2 g).elements = (scalarMul p.2 g).elements
    rw [← hlen2, zipWith_add_replicate_zero]

lemma algebra_ok_foldl (loader : String → Except LoadError Raster)
    (maps : List (String × ℚ)) (R C : Nat) (hne : maps ≠ [])
    (hld : ∀ p ∈ maps, ∃ g, loader p.1 = .ok g ∧ g.rows = R ∧ g.cols = C ∧
      g.elements.length = R * C) :
    algebra loader maps
      = .ok (List.foldl (overlayStep loader) (zeroGrid R C) maps) := by
  match maps with
  | [] => exact absurd rfl hne
  | (s0, w0) :: rest =>
    obtain ⟨g0, hg0, hgr, hgc, hglen⟩ := hld (s0, w0) (by simp)
    show (match loader s0 with
      | .error e => .error (.load s0 e)
      | .ok d => List.foldlM (algebraStep loader) (scalarMul w0 d) rest)
      = Except.ok (List.foldl (overlayStep loader) (zeroGrid R C)
          ((s0, w0) :: rest))
    rw [hg0, List.foldl_cons,
      overlayStep_zero loader R C (s0, w0) g0 hg0 hgr hgc hglen]
    exact foldlM_eq_foldl loader R C rest (scalarMul w0 g0)
      (by simp [scalarMul, hgr]) (by simp [scalarMul, hgc])
      (by simp [scalarMul, hglen])
      (fun q hq => hld q (List.mem_cons_of_mem _ hq))

lemma getD_map_range (f : Nat → ℚ) (n k : Nat) (h : k < n) :
    ((List.range n).map f).getD k 0 = f k := by
  have hk : k < ((List.range n).map f).length := by simpa using h
  rw [List.getD_eq_getElem _ _ hk, List.getElem_map, List.getElem_range]

lemma algebra_eq_weightedSumSpec (loader : String → Except LoadError Raster)
    (maps : List (String × ℚ)) (R C : Nat) (hne : maps ≠ [])
    (hld : ∀ p ∈ maps, ∃ g, loader p.1 = .ok g ∧ g.rows = R ∧ g.cols = C ∧
      g.elements.length = R * C) :
    algebra loader maps = .ok (weightedSumSpec loader maps R C) := by
  rw [algebra_ok_foldl loader maps R C hne hld]
  congr 1
  have hldG : ∀ p ∈ maps, (loadG loader p.1).elements.length = R * C := by
    intro p hp
    obtain ⟨g, hg, _, _, hlen⟩ := hld p hp
    rw [loadG, hg]
    exact hlen
  have hz := zeroGrid_shape R C
  have hshape := foldl_overlay_shape loader R C maps (zeroGrid R C)
    hz.1 hz.2.1 hz.2.2 hldG
  have hlenspec : (weightedSumSpec loader maps R C).elements.length
      = R * C := by
    simp [weightedSumSpec]
  apply Raster.ext
  · rw [hshape.1]
    rfl
  · rw [hshape.2.1]
    rfl
  · apply List.ext_getElem (by rw [hshape.2.2, hlenspec])
    intro k hk1 hk2
    have hkRC : k < R * C := by
      rw [hshape.2.2] at hk1
      exact hk1
    rw [← List.getD_eq_getElem _ 0 hk1, ← List.getD_eq_getElem _ 0 hk2]
    rw [foldl_overlay_getD loader R C maps (zeroGrid R C)
      hz.1 hz.2.1 hz.2.2 hldG k hkRC]
    have hzget : (zeroGrid R C).elements.getD k 0 = 0 := by
      show (List.replicate (R * C) (0 : ℚ)).getD k 0 = 0
      rw [List.getD_eq_getElem _ _ (by simpa using hkRC),
        List.getElem_replicate]
    rw [hzget, zero_add]
    simp only [weightedSumSpec]
    rw [getD_map_range _ _ _ hkRC]

/-- Claim C2: for every non-empty weight mapping whose sources all load to
grids of one common shape R×C (with the row-major length invariant),
`algebra` returns a result grid, and that grid agrees with the independently
computed explicit scalar-weighted sum `Σ wi * gi` (`weightedSumSpec`) under
`relative_eq` at the spec's epsilon 1e-5 — in the exact rational model the
two grids are equal, so the tolerance comparison holds for every
max_relative. -/
theorem algebra_linearity (loader : String → Except LoadError Raster)
    (maps : List (String × ℚ)) (R C : Nat) (hne : maps ≠ [])
    (hld : ∀ p ∈ maps, ∃ g, loader p.1 = .ok g ∧ g.rows = R ∧ g.cols = C ∧
      g.elements.length = R * C) :
    ∃ g, algebra loader maps = .ok g ∧
      ∀ maxRel, Raster.relative_eq g (weightedSumSpec loader maps R C)
        (1 / 100000) maxRel = true :=
  ⟨weightedSumSpec loader maps R C,
    algebra_eq_weightedSumSpec loader maps R C hne hld,
    fun _ => relative_eq_refl _ _ _⟩

/-- A concrete loader used by the overlay witnesses: source "a" holds the
1×2 grid [1, 2], every other source the 1×2 grid [3, 4]. -/
def loaderSwap : String → Except LoadError Raster := fun s =>
  if s = "a" then .ok ⟨1, 2, [1, 2]⟩ else .ok ⟨1, 2, [3, 4]⟩

/-- Claim C2 witness: the two-source mapping [("a", 2), ("b", 3)] over 1×2
grids. -/
theorem algebra_linearity_witness :
    ([(("a" : String), (2 : ℚ)), ("b", 3)]) ≠ [] ∧
    (∃ g, algebra loaderSwap [("a", 2), ("b", 3)] = .ok g ∧
      ∀ maxRel, Raster.relative_eq g
        (weightedSumSpec loaderSwap [("a", 2), ("b", 3)] 1 2)
        (1 / 100000) maxRel = true) :=
  ⟨by simp,
    algebra_linearity loaderSwap [("a", 2), ("b", 3)] 1 2 (by simp)
      (by
        intro p hp
        rcases List.mem_cons.mp hp with rfl | hp2
        · exact ⟨⟨1, 2, [1, 2]⟩, rfl, rfl, rfl, rfl⟩
        · rcases List.mem_cons.mp hp2 with rfl | hp3
          · exact ⟨⟨1, 2, [3, 4]⟩, rfl, rfl, rfl, rfl⟩
          · simp at hp3)⟩

lemma overlayStep_rcomm (loader : String → Except LoadError Raster)
    (a : Raster) (p q : String × ℚ) :
    overlayStep loader (overlayStep loader a p) q
      = overlayStep loader (overlayStep loader a q) p := by
  simp only [overlayStep, gridAddT]
  exact congrArg (Raster.mk a.rows a.cols) (zipWith_add_right_comm _ _ _)

lemma foldl_perm_of_rcomm {α β : Type} (f : β → α → β)
    (hf : ∀ b p q, f (f b p) q = f (f b q) p) :
    ∀ {l1 l2 : List α}, l1.Perm l2 → ∀ b, l1.foldl f b = l2.foldl f b := by
  intro l1 l2 h
  induction h with
  | nil =>
    intro b
    rfl
  | cons x h ih =>
    intro b
    rw [List.foldl_cons, List.foldl_cons]
    exact ih _
  | swap x y l =>
    intro b
    rw [List.foldl_cons, List.foldl_cons, List.foldl_cons, List.foldl_cons,
      hf b y x]
  | trans h1 h2 ih1 ih2 =>
    intro b
    rw [ih1, ih2]

/-- Claim C8: for a non-empty weight mapping whose sources all load to grids
of one common shape, the overlay result does not depend on which pair the
map's iteration order presents first as the seed: running `algebra` on any
permutation of the pair list yields a result grid that is equal — hence in
particular within `relative_eq` at epsilon 1e-5 — to the original one (exact
rational arithmetic makes the accumulation order-independent). -/
theorem algebra_seed_independence (loader : String → Except LoadError Raster)
    (maps1 maps2 : List (String × ℚ)) (R C : Nat)
    (hperm : maps1.Perm maps2) (hne : maps1 ≠ [])
    (hld : ∀ p ∈ maps1, ∃ g, loader p.1 = .ok g ∧ g.rows = R ∧ g.cols = C ∧
      g.elements.length = R * C) :
    ∃ g1 g2, algebra loader maps1 = .ok g1 ∧
      algebra loader maps2 = .ok g2 ∧ g1 = g2 ∧
      ∀ maxRel, Raster.relative_eq g1 g2 (1 / 100000) maxRel = true := by
  have hne2 : maps2 ≠ [] := by
    intro h
    exact hne (List.Perm.eq_nil (h ▸ hperm))
  have hld2 : ∀ p ∈ maps2, ∃ g, loader p.1 = .ok g ∧ g.rows = R ∧
      g.cols = C ∧ g.elements.length = R * C :=
    fun p hp => hld p (hperm.mem_iff.mpr hp)
  have hfold : List.foldl (overlayStep loader) (zeroGrid R C) maps1
      = List.foldl (overlayStep loader) (zeroGrid R C) maps2 :=
    foldl_perm_of_rcomm (overlayStep loader) (overlayStep_rcomm loader)
      hperm _
  refine ⟨_, _, algebra_ok_foldl loader maps1 R C hne hld,
    algebra_ok_foldl loader maps2 R C hne2 hld2, hfold, ?_⟩
  intro maxRel
  rw [hfold]
  exact relative_eq_refl _ _ _

/-- Claim C8 witness: the two-source mapping over 1×2 grids, run in both
orders — each order makes a different pair the seed. -/
theorem algebra_seed_independence_witness :
    ([(("a" : String), (1 : ℚ)), ("b", 2)]).Perm [("b", 2), ("a", 1)] ∧
    (∃ g1 g2, algebra loaderSwap [("a", 1), ("b", 2)] = .ok g1 ∧
      algebra loaderSwap [("b", 2), ("a", 1)] = .ok g2 ∧ g1 = g2 ∧
      ∀ maxRel, Raster.relative_eq g1 g2 (1 / 100000) maxRel = true) :=
  ⟨List.Perm.swap ("b", 2) ("a", 1) [],
    algebra_seed_independence loaderSwap [("a", 1), ("b", 2)]
      [("b", 2), ("a", 1)] 1 2 (List.Perm.swap ("b", 2) ("a", 1) [])
      (by simp)
      (by
        intro p hp
        rcases List.mem_cons.mp hp with rfl | hp2
        · exact ⟨⟨1, 2, [1, 2]⟩, rfl, rfl, rfl, rfl⟩
        · rcases List.mem_cons.mp hp2 with rfl | hp3
          · exact ⟨⟨1, 2, [3, 4]⟩, rfl, rfl, rfl, rfl⟩
          · simp at hp3)⟩
